import Mathlib

/-!
Shallow embedding of the diagram-recovery subsystem of the DeepWiki-to-Markdown
converter (src/content.js), together with theorems settling the specification's
claims about it.

Modelling conventions:
* JS strings are modelled as Lean `String` / `List Char`.
* Geometric quantities (DOMRect fields, SVG coordinates) are modelled as `ℚ`.
* JS `Math.sqrt`-based distances are modelled by squared distances compared
  against squared thresholds; every comparison in the source compares a
  distance either to another distance or to a nonnegative constant, so the
  square-free and squared models order identically.
* JS objects keyed by generated ids are modelled as lists in insertion order
  (string keys that are not array indices enumerate in insertion order).
-/

namespace DeepWiki

/-- Model of JS `String.prototype.startsWith` on char lists (pattern first). -/
def startsWithL : List Char → List Char → Bool
  | [], _ => true
  | _ :: _, [] => false
  | a :: as, b :: bs => a == b && startsWithL as bs

/-- Occurrence of `pat` as a contiguous substring, on char lists. -/
def containsSubL (pat : List Char) : List Char → Bool
  | [] => startsWithL pat []
  | c :: t => startsWithL pat (c :: t) || containsSubL pat t

/-- Model of JS `String.prototype.includes`. -/
def jsIncludes (s pat : String) : Bool := containsSubL pat.data s.data

theorem string_append_assoc (a b c : String) : a ++ b ++ c = a ++ (b ++ c) :=
  String.append_assoc a b c

theorem append_mid_eq (f t m₁ m₂ m₃ m : String) (h : m₁ ++ m₂ ++ m₃ = m) :
    f ++ m₁ ++ m₂ ++ m₃ ++ t = f ++ m ++ t := by
  subst h
  rw [string_append_assoc f m₁ m₂, string_append_assoc f (m₁ ++ m₂) m₃]

/-! Class-diagram recoverer: relation classification
(src/content.js, `convertClassDiagramSvgToMermaidText`, lines 782–913)

For each `path.relation`, the source decomposes the path id into
`(fromClass, toClass)` and then derives the relation text from the
`marker-start` / `marker-end` attributes and the dash styling.  The decision
table below is a line-by-line translation of the if/else chain at lines
816–904.
-/

/-- Line style as in the source: `isDashed ? ".." : "--"`. -/
def lineStyleOf (isDashed : Bool) : String := if isDashed then ".." else "--"

/-- The relation text emitted for one connector, translated from the
marker-decoration decision table (src/content.js lines 816–904). -/
def relationshipType (fromClass toClass markerStartAttr markerEndAttr : String)
    (isDashed : Bool) : String :=
  let lineStyle := lineStyleOf isDashed
  if jsIncludes markerStartAttr "extensionStart" then
    if isDashed then fromClass ++ " <|.. " ++ toClass
    else fromClass ++ " <|" ++ lineStyle ++ " " ++ toClass
  else if jsIncludes markerEndAttr "extensionEnd" then
    if isDashed then toClass ++ " <|.. " ++ fromClass
    else toClass ++ " <|" ++ lineStyle ++ " " ++ fromClass
  else if jsIncludes markerStartAttr "lollipopStart" ||
      jsIncludes markerStartAttr "implementStart" then
    toClass ++ " ..|> " ++ fromClass
  else if jsIncludes markerEndAttr "implementEnd" ||
      jsIncludes markerEndAttr "lollipopEnd" ||
      (jsIncludes markerEndAttr "interfaceEnd" && isDashed) then
    fromClass ++ " ..|> " ++ toClass
  else if jsIncludes markerStartAttr "compositionStart" then
    fromClass ++ " *" ++ lineStyle ++ " " ++ toClass
  else if jsIncludes markerEndAttr "compositionEnd" ||
      (jsIncludes markerEndAttr "diamondEnd" && jsIncludes markerEndAttr "filled") then
    toClass ++ " *" ++ lineStyle ++ " " ++ fromClass
  else if jsIncludes markerStartAttr "aggregationStart" then
    toClass ++ " " ++ lineStyle ++ "o " ++ fromClass
  else if jsIncludes markerEndAttr "aggregationEnd" ||
      (jsIncludes markerEndAttr "diamondEnd" && !jsIncludes markerEndAttr "filled") then
    fromClass ++ " o" ++ lineStyle ++ " " ++ toClass
  else if jsIncludes markerStartAttr "dependencyStart" then
    if isDashed then toClass ++ " <.. " ++ fromClass
    else toClass ++ " <-- " ++ fromClass
  else if jsIncludes markerEndAttr "dependencyEnd" then
    if isDashed then fromClass ++ " ..> " ++ toClass
    else fromClass ++ " --> " ++ toClass
  else if jsIncludes markerStartAttr "arrowStart" || jsIncludes markerStartAttr "openStart" then
    toClass ++ " <" ++ lineStyle ++ " " ++ fromClass
  else if jsIncludes markerEndAttr "arrowEnd" || jsIncludes markerEndAttr "openEnd" then
    fromClass ++ " " ++ lineStyle ++ "> " ++ toClass
  else if lineStyle == "--" && !jsIncludes markerEndAttr "End" &&
      !jsIncludes markerStartAttr "Start" then
    fromClass ++ " -- " ++ toClass
  else if lineStyle == ".." && !jsIncludes markerEndAttr "End" &&
      !jsIncludes markerStartAttr "Start" then
    fromClass ++ " .. " ++ toClass
  else
    fromClass ++ " " ++ lineStyle ++ " " ++ toClass

/-- C3: In the class-diagram recoverer, for every connector whose id
decomposes to `(fromClass, toClass)`: an inheritance (extension) marker at the
start end emits `fromClass <|-- toClass` (`fromClass <|.. toClass` when
dashed); a marker at the end end emits the reversed direction
`toClass <|-- fromClass` (`toClass <|.. fromClass` when dashed); so moving the
marker from one end to the other always reverses the emitted direction. -/
theorem c3_inheritance_marker_direction
    (fromClass toClass markerStartAttr markerEndAttr : String) (isDashed : Bool) :
    (jsIncludes markerStartAttr "extensionStart" = true →
      relationshipType fromClass toClass markerStartAttr markerEndAttr isDashed
        = if isDashed then fromClass ++ " <|.. " ++ toClass
          else fromClass ++ " <|-- " ++ toClass) ∧
    (jsIncludes markerStartAttr "extensionStart" = false →
      jsIncludes markerEndAttr "extensionEnd" = true →
      relationshipType fromClass toClass markerStartAttr markerEndAttr isDashed
        = if isDashed then toClass ++ " <|.. " ++ fromClass
          else toClass ++ " <|-- " ++ fromClass) := by
  constructor
  · intro hs
    cases isDashed with
    | false =>
      simp only [relationshipType, lineStyleOf, hs, if_true, if_false, Bool.false_eq_true,
        reduceIte]
      exact append_mid_eq fromClass toClass " <|" "--" " " " <|-- " (by decide)
    | true =>
      simp [relationshipType, hs]
  · intro hs he
    cases isDashed with
    | false =>
      simp only [relationshipType, lineStyleOf, hs, he, if_true, if_false, Bool.false_eq_true,
        reduceIte]
      exact append_mid_eq toClass fromClass " <|" "--" " " " <|-- " (by decide)
    | true =>
      simp [relationshipType, hs, he]

/-- Witness for C3: concrete marker attributes at each end, checking both the
start-marked and end-marked cases at `Base`/`Derived`. -/
theorem c3_inheritance_marker_direction_witness :
    relationshipType "Base" "Derived" "url(#graph-extensionStart)" "" false
      = "Base" ++ " <|-- " ++ "Derived" ∧
    relationshipType "Base" "Derived" "" "url(#graph-extensionEnd)" false
      = "Derived" ++ " <|-- " ++ "Base" := by
  constructor
  · exact ((c3_inheritance_marker_direction "Base" "Derived"
      "url(#graph-extensionStart)" "" false).1 (by decide)).trans (by decide)
  · exact (((c3_inheritance_marker_direction "Base" "Derived"
      "" "url(#graph-extensionEnd)" false).2 (by decide)) (by decide)).trans (by decide)

/-! Flowchart recoverer: element collection and geometric containment
(src/content.js, `convertFlowchartSvgToMermaidText`, lines 204–306)
-/

/-- A DOMRect as read by `getBoundingClientRect()`: `right = left + width`,
`bottom = top + height`. -/
structure BBox where
  left : ℚ
  top : ℚ
  width : ℚ
  height : ℚ
deriving DecidableEq

def BBox.right (b : BBox) : ℚ := b.left + b.width

def BBox.bottom (b : BBox) : ℚ := b.top + b.height

def BBox.area (b : BBox) : ℚ := b.width * b.height

/-- Geometric containment test from lines 291–294: closed-interval
left/right/top/bottom comparisons of the child box against the parent box. -/
def bboxContains (parent child : BBox) : Prop :=
  child.left ≥ parent.left ∧ child.right ≤ parent.right ∧
    child.top ≥ parent.top ∧ child.bottom ≤ parent.bottom

instance : DecidablePred fun p : BBox × BBox => bboxContains p.1 p.2 := fun _ =>
  instDecidableAnd

instance (parent child : BBox) : Decidable (bboxContains parent child) :=
  instDecidableAnd

/-- A recovered cluster: stable SVG id plus its rect's bounding box. -/
structure Cluster where
  svgId : String
  box : BBox
deriving DecidableEq

/-- The running-minimum test `area < minArea` of line 297, where an absent
best candidate stands for `minArea = Infinity`. -/
def beatsBest (area : ℚ) : Option (String × ℚ) → Prop
  | none => True
  | some (_, a) => area < a

instance : ∀ (area : ℚ) (b : Option (String × ℚ)), Decidable (beatsBest area b)
  | _, none => isTrue trivial
  | area, some (_, a) => inferInstanceAs (Decidable (area < a))

theorem beatsBest_none (area : ℚ) : beatsBest area none := trivial

theorem beatsBest_some (area : ℚ) (b : String × ℚ) :
    beatsBest area (some b) ↔ area < b.2 := by
  cases b; exact Iff.rfl

/-- The parent-selection loop of lines 284–302: scan all clusters in insertion
order, skip the element itself, and keep the containing cluster of smallest
area seen so far (strict `<`, so the first cluster attains a tied minimum). -/
def chooseParentGo (childId : String) (childBox : BBox) :
    List Cluster → Option (String × ℚ) → Option (String × ℚ)
  | [], best => best
  | p :: rest, best =>
    if p.svgId = childId then chooseParentGo childId childBox rest best
    else if bboxContains p.box childBox ∧ beatsBest p.box.area best then
      chooseParentGo childId childBox rest (some (p.svgId, p.box.area))
    else chooseParentGo childId childBox rest best

/-- Parent lookup for one element (lines 282–306, the value stored in
`parentMap`): `none` when no cluster geometrically contains it. -/
def chooseParent (childId : String) (childBox : BBox) (clusters : List Cluster) :
    Option String :=
  (chooseParentGo childId childBox clusters none).map Prod.fst

theorem chooseParentGo_some (childId : String) (childBox : BBox) :
    ∀ (l : List Cluster) (b : String × ℚ),
      ∃ r, chooseParentGo childId childBox l (some b) = some r := by
  intro l
  induction l with
  | nil => exact fun b => ⟨b, rfl⟩
  | cons p rest ih =>
    intro b
    by_cases hid : p.svgId = childId
    · rw [chooseParentGo, if_pos hid]
      exact ih b
    · by_cases hc : bboxContains p.box childBox ∧ beatsBest p.box.area (some b)
      · rw [chooseParentGo, if_neg hid, if_pos hc]
        exact ih (p.svgId, p.box.area)
      · rw [chooseParentGo, if_neg hid, if_neg hc]
        exact ih b

theorem chooseParentGo_none_iff (childId : String) (childBox : BBox) :
    ∀ (l : List Cluster) (best : Option (String × ℚ)),
      chooseParentGo childId childBox l best = none ↔
        (best = none ∧ ∀ c ∈ l, c.svgId ≠ childId → ¬ bboxContains c.box childBox) := by
  intro l
  induction l with
  | nil => simp [chooseParentGo]
  | cons p rest ih =>
    intro best
    by_cases hid : p.svgId = childId
    · rw [chooseParentGo, if_pos hid, ih]
      constructor
      · rintro ⟨h1, h2⟩
        refine ⟨h1, ?_⟩
        intro c hc hne
        cases hc with
        | head => exact absurd hid hne
        | tail _ h => exact h2 c h hne
      · rintro ⟨h1, h2⟩
        exact ⟨h1, fun c hc hne => h2 c (List.mem_cons_of_mem _ hc) hne⟩
    · cases best with
      | none =>
        by_cases hc : bboxContains p.box childBox
        · rw [chooseParentGo, if_neg hid, if_pos ⟨hc, beatsBest_none p.box.area⟩]
          obtain ⟨r, hr⟩ := chooseParentGo_some childId childBox rest (p.svgId, p.box.area)
          rw [hr]
          simp only [false_iff, not_and, reduceCtorEq]
          intro _ hall
          exact hall p (List.mem_cons_self p rest) hid hc
        · rw [chooseParentGo, if_neg hid, if_neg (by simp [hc]), ih]
          constructor
          · rintro ⟨-, h2⟩
            refine ⟨rfl, ?_⟩
            intro c hcm hne
            cases hcm with
            | head => exact hc
            | tail _ h => exact h2 c h hne
          · rintro ⟨-, h2⟩
            exact ⟨rfl, fun c hcm hne => h2 c (List.mem_cons_of_mem _ hcm) hne⟩
      | some b =>
        by_cases hc : bboxContains p.box childBox ∧ beatsBest p.box.area (some b)
        · rw [chooseParentGo, if_neg hid, if_pos hc]
          obtain ⟨r, hr⟩ := chooseParentGo_some childId childBox rest (p.svgId, p.box.area)
          rw [hr]
          simp
        · rw [chooseParentGo, if_neg hid, if_neg hc]
          obtain ⟨r, hr⟩ := chooseParentGo_some childId childBox rest b
          rw [hr]
          simp

theorem chooseParentGo_min (childId : String) (childBox : BBox) :
    ∀ (l : List Cluster) (best : Option (String × ℚ)) (p : String) (a : ℚ),
      chooseParentGo childId childBox l best = some (p, a) →
        (∀ c ∈ l, c.svgId ≠ childId → bboxContains c.box childBox → a ≤ c.box.area) ∧
        (∀ b : String × ℚ, best = some b → a ≤ b.2) ∧
        (best = some (p, a) ∨
          ∃ c ∈ l, c.svgId = p ∧ c.svgId ≠ childId ∧ bboxContains c.box childBox ∧
            a = c.box.area) := by
  intro l
  induction l with
  | nil =>
    intro best p a h
    simp only [chooseParentGo] at h
    subst h
    refine ⟨by simp, ?_, Or.inl rfl⟩
    intro b hb
    injection hb with hb'
    subst hb'
    exact le_rfl
  | cons q rest ih =>
    intro best p a h
    by_cases hid : q.svgId = childId
    · rw [chooseParentGo, if_pos hid] at h
      obtain ⟨h1, h2, h3⟩ := ih best p a h
      refine ⟨?_, h2, ?_⟩
      · intro c hc hcne hcont
        cases hc with
        | head => exact absurd hid hcne
        | tail _ hm => exact h1 c hm hcne hcont
      · cases h3 with
        | inl h3 => exact Or.inl h3
        | inr h3 =>
          obtain ⟨c, hm, rest'⟩ := h3
          exact Or.inr ⟨c, List.mem_cons_of_mem _ hm, rest'⟩
    · by_cases hc : bboxContains q.box childBox ∧ beatsBest q.box.area best
      · rw [chooseParentGo, if_neg hid, if_pos hc] at h
        obtain ⟨h1, h2, h3⟩ := ih (some (q.svgId, q.box.area)) p a h
        have haq : a ≤ q.box.area := h2 _ rfl
        refine ⟨?_, ?_, ?_⟩
        · intro c hcm hcne hcont
          cases hcm with
          | head => exact haq
          | tail _ hm => exact h1 c hm hcne hcont
        · intro b hb
          subst hb
          have hlt : q.box.area < b.2 := (beatsBest_some q.box.area b).mp hc.2
          exact le_of_lt (lt_of_le_of_lt haq hlt)
        · cases h3 with
          | inl h3 =>
            simp only [Option.some.injEq, Prod.mk.injEq] at h3
            exact Or.inr ⟨q, List.mem_cons_self q rest, h3.1, hid, hc.1, h3.2.symm⟩
          | inr h3 =>
            obtain ⟨c, hm, rest'⟩ := h3
            exact Or.inr ⟨c, List.mem_cons_of_mem _ hm, rest'⟩
      · rw [chooseParentGo, if_neg hid, if_neg hc] at h
        obtain ⟨h1, h2, h3⟩ := ih best p a h
        refine ⟨?_, h2, ?_⟩
        · intro c hcm hcne hcont
          cases hcm with
          | head =>
            -- the guard failed but the head contains the child, so `best` exists
            -- and is at most the head's area
            rcases not_and_or.mp hc with hncont | hnlt
            · exact absurd hcont hncont
            · cases best with
              | none => exact absurd (beatsBest_none q.box.area) hnlt
              | some b =>
                rw [beatsBest_some, not_lt] at hnlt
                exact le_trans (h2 b rfl) hnlt
          | tail _ hm => exact h1 c hm hcne hcont
        · cases h3 with
          | inl h3 => exact Or.inl h3
          | inr h3 =>
            obtain ⟨c, hm, rest'⟩ := h3
            exact Or.inr ⟨c, List.mem_cons_of_mem _ hm, rest'⟩

theorem chooseParent_none_iff (childId : String) (childBox : BBox)
    (clusters : List Cluster) :
    chooseParent childId childBox clusters = none ↔
      ∀ d ∈ clusters, d.svgId ≠ childId → ¬ bboxContains d.box childBox := by
  rw [chooseParent, Option.map_eq_none', chooseParentGo_none_iff]
  simp

/-- C1 (amended): In the flowchart recoverer, the parent assigned to an
element is a cluster (other than the element itself) whose box contains the
element's box and whose area is minimal among all such containing clusters —
on ties of minimal area the first such cluster in insertion order is kept;
an element contained in no cluster has no parent; and whenever a containing
cluster `A` has strictly smaller area than every other containing cluster,
the parent is exactly `A`. -/
theorem c1_parent_is_minimal_area_container
    (childId : String) (childBox : BBox) (clusters : List Cluster) :
    (∀ p, chooseParent childId childBox clusters = some p →
      ∃ c ∈ clusters, c.svgId = p ∧ c.svgId ≠ childId ∧ bboxContains c.box childBox ∧
        ∀ d ∈ clusters, d.svgId ≠ childId → bboxContains d.box childBox →
          c.box.area ≤ d.box.area) ∧
    (chooseParent childId childBox clusters = none ↔
      ∀ d ∈ clusters, d.svgId ≠ childId → ¬ bboxContains d.box childBox) ∧
    (∀ A ∈ clusters, A.svgId ≠ childId → bboxContains A.box childBox →
      (∀ d ∈ clusters, d ≠ A → d.svgId ≠ childId → bboxContains d.box childBox →
        A.box.area < d.box.area) →
      chooseParent childId childBox clusters = some A.svgId) := by
  refine ⟨?_, ?_, ?_⟩
  · intro p hp
    obtain ⟨⟨p', a⟩, hgo, hfst⟩ := Option.map_eq_some'.mp hp
    have hfst' : p' = p := hfst
    obtain ⟨h1, -, h3⟩ := chooseParentGo_min childId childBox clusters none p' a hgo
    cases h3 with
    | inl h3 => exact absurd h3 (by simp)
    | inr h3 =>
      obtain ⟨c, hm, hcp, hcne, hccont, hca⟩ := h3
      refine ⟨c, hm, by rw [hcp, hfst'], hcne, hccont, ?_⟩
      intro d hd hdne hdcont
      rw [← hca]
      exact h1 d hd hdne hdcont
  · exact chooseParent_none_iff childId childBox clusters
  · intro A hA hAne hAcont hmin
    cases hp : chooseParent childId childBox clusters with
    | none =>
      have := ((chooseParent_none_iff childId childBox clusters).mp hp) A hA hAne
      exact absurd hAcont this
    | some p =>
      obtain ⟨⟨p', a⟩, hgo, hfst⟩ := Option.map_eq_some'.mp hp
      have hfst' : p' = p := hfst
      obtain ⟨h1, -, h3⟩ := chooseParentGo_min childId childBox clusters none p' a hgo
      cases h3 with
      | inl h3 => exact absurd h3 (by simp)
      | inr h3 =>
        obtain ⟨c, hm, hcp, hcne, hccont, hca⟩ := h3
        by_cases hcA : c = A
        · subst hcA
          rw [hcp, hfst']
        · have hlt : A.box.area < c.box.area := hmin c hm hcA hcne hccont
          have hle : a ≤ A.box.area := h1 A hA hAne hAcont
          rw [hca] at hle
          exact absurd hlt (not_lt.mpr hle)

/-- Witness for C1: two nested clusters around a node; the strictly smaller
containing cluster is chosen as parent. -/
theorem c1_parent_is_minimal_area_container_witness :
    chooseParent "n" ⟨12, 12, 4, 4⟩
      [⟨"outer", ⟨0, 0, 100, 100⟩⟩, ⟨"inner", ⟨10, 10, 20, 20⟩⟩] = some "inner" := by
  refine (c1_parent_is_minimal_area_container "n" ⟨12, 12, 4, 4⟩
      [⟨"outer", ⟨0, 0, 100, 100⟩⟩, ⟨"inner", ⟨10, 10, 20, 20⟩⟩]).2.2
    ⟨"inner", ⟨10, 10, 20, 20⟩⟩ (by simp) (by simp) ?_ ?_
  · show bboxContains ⟨10, 10, 20, 20⟩ ⟨12, 12, 4, 4⟩
    norm_num [bboxContains, BBox.right, BBox.bottom]
  · intro d hd hdne _ _
    simp only [List.mem_cons, List.not_mem_nil, or_false] at hd
    rcases hd with rfl | rfl
    · norm_num [BBox.area]
    · exact absurd rfl hdne

/-- Counterexample to C1 as stated: clusters `A1` and `A2` have equal areas and
both contain cluster `B`; `A2` contains `B` and no containing cluster of
strictly smaller area exists (the only other candidate `A1` has equal area),
yet `B`'s parent is `A1` (the first of the tied minimum in insertion order),
not `A2`. -/
theorem c1_tie_counterexample :
    bboxContains (BBox.mk 0 0 5 20) (BBox.mk 1 1 2 2) ∧
    bboxContains (BBox.mk 0 0 10 10) (BBox.mk 1 1 2 2) ∧
    (BBox.mk 0 0 10 10).area = (BBox.mk 0 0 5 20).area ∧
    ¬ (BBox.mk 0 0 10 10).area < (BBox.mk 0 0 5 20).area ∧
    ¬ (BBox.mk 0 0 5 20).area < (BBox.mk 0 0 5 20).area ∧
    chooseParent "B" ⟨1, 1, 2, 2⟩
      [⟨"A1", ⟨0, 0, 10, 10⟩⟩, ⟨"A2", ⟨0, 0, 5, 20⟩⟩, ⟨"B", ⟨1, 1, 2, 2⟩⟩]
      = some "A1" ∧
    ("A1" : String) ≠ "A2" := by
  refine ⟨?_, ?_, by norm_num [BBox.area], by norm_num [BBox.area],
    by norm_num [BBox.area], ?_, by decide⟩
  · norm_num [bboxContains, BBox.right, BBox.bottom]
  · norm_num [bboxContains, BBox.right, BBox.bottom]
  · norm_num [chooseParent, chooseParentGo, bboxContains, beatsBest,
      BBox.right, BBox.bottom, BBox.area]
    exact ⟨100, rfl⟩

/-! Flowchart recoverer: node and cluster collection
(src/content.js lines 215–279)
-/

/-- Strip the `flowchart-` id prefix (line 237, first `replace` call). -/
def stripFlowchartPre (s : List Char) : List Char :=
  if startsWithL "flowchart-".data s then s.drop 10 else s

/-- Strip a trailing dash-digits suffix (line 237, second `replace` call,
regex dash `\d+` dollar). -/
def dropDashNumSuffix (s : List Char) : List Char :=
  let r := s.reverse
  let ds := r.takeWhile Char.isDigit
  match r.drop ds.length with
  | '-' :: rest => if ds.isEmpty then s else rest.reverse
  | _ => s

def mermaidIdOf (svgId : String) : String :=
  ⟨dropDashNumSuffix (stripFlowchartPre svgId.data)⟩

/-- One rendered `g.node` / `g.cluster` element as read from the SVG: its own
id, its extracted label text, and its bounding box's extent. -/
structure RawElem where
  svgId : String
  label : String
  width : ℚ
  height : ℚ
deriving DecidableEq

structure FlowNode where
  mermaidId : String
  text : String
  svgId : String
deriving DecidableEq

structure FlowCluster where
  mermaidId : String
  title : String
  svgId : String
deriving DecidableEq

def mkFlowNode (e : RawElem) : FlowNode := ⟨mermaidIdOf e.svgId, e.label, e.svgId⟩

/-- Cluster title fallback (lines 257–264): label text, else the SVG id. -/
def mkFlowCluster (e : RawElem) : FlowCluster :=
  ⟨e.svgId, if e.label = "" then e.svgId else e.label, e.svgId⟩

/-- Node collection (lines 215–250): skip elements without an id; keep an
element iff `bbox.width > 0 || bbox.height > 0`. -/
def collectFlowNodes (els : List RawElem) : List FlowNode :=
  els.filterMap fun e =>
    if e.svgId = "" then none
    else if 0 < e.width ∨ 0 < e.height then some (mkFlowNode e)
    else none

/-- Cluster collection (lines 253–279): same id and extent guards. -/
def collectFlowClusters (els : List RawElem) : List FlowCluster :=
  els.filterMap fun e =>
    if e.svgId = "" then none
    else if 0 < e.width ∨ 0 < e.height then some (mkFlowCluster e)
    else none

/-- C6 (amended): In the flowchart recoverer, an element is excluded from
the recovered nodes and clusters iff it has no id or both its bounding-box
width and height are zero; every element with a nonempty id and positive width
*or* positive height is kept (in particular a zero-area element with positive
extent in one dimension is still collected). -/
theorem c6_collection_keeps_positive_extent (els : List RawElem) :
    (∀ e ∈ els, e.svgId ≠ "" → (0 < e.width ∨ 0 < e.height) →
      mkFlowNode e ∈ collectFlowNodes els ∧ mkFlowCluster e ∈ collectFlowClusters els) ∧
    (∀ n ∈ collectFlowNodes els,
      ∃ e ∈ els, e.svgId ≠ "" ∧ (0 < e.width ∨ 0 < e.height) ∧ n = mkFlowNode e) ∧
    (∀ c ∈ collectFlowClusters els,
      ∃ e ∈ els, e.svgId ≠ "" ∧ (0 < e.width ∨ 0 < e.height) ∧ c = mkFlowCluster e) := by
  refine ⟨?_, ?_, ?_⟩
  · intro e he hid hpos
    constructor
    · exact List.mem_filterMap.mpr ⟨e, he, by rw [if_neg hid, if_pos hpos]⟩
    · exact List.mem_filterMap.mpr ⟨e, he, by rw [if_neg hid, if_pos hpos]⟩
  · intro n hn
    obtain ⟨e, he, hf⟩ := List.mem_filterMap.mp hn
    by_cases hid : e.svgId = ""
    · rw [if_pos hid] at hf
      exact absurd hf (by simp)
    · by_cases hpos : 0 < e.width ∨ 0 < e.height
      · rw [if_neg hid, if_pos hpos] at hf
        exact ⟨e, he, hid, hpos, (Option.some.inj hf).symm⟩
      · rw [if_neg hid, if_neg hpos] at hf
        exact absurd hf (by simp)
  · intro c hc
    obtain ⟨e, he, hf⟩ := List.mem_filterMap.mp hc
    by_cases hid : e.svgId = ""
    · rw [if_pos hid] at hf
      exact absurd hf (by simp)
    · by_cases hpos : 0 < e.width ∨ 0 < e.height
      · rw [if_neg hid, if_pos hpos] at hf
        exact ⟨e, he, hid, hpos, (Option.some.inj hf).symm⟩
      · rw [if_neg hid, if_neg hpos] at hf
        exact absurd hf (by simp)

/-- Witness for C6: an element of width `0` and height `5` (zero area, positive
extent) is collected as a node. -/
theorem c6_collection_keeps_positive_extent_witness :
    mkFlowNode ⟨"flowchart-A-1", "X", 0, 5⟩ ∈
      collectFlowNodes [⟨"flowchart-A-1", "X", 0, 5⟩] := by
  refine ((c6_collection_keeps_positive_extent [⟨"flowchart-A-1", "X", 0, 5⟩]).1
    ⟨"flowchart-A-1", "X", 0, 5⟩ (by simp) (by simp) (Or.inr ?_)).1
  norm_num

/-- Counterexample to C6 as stated: a rendered element whose bounding-box area
is zero (`width * height = 0`, here width `0`, height `5`) is *not* excluded —
it is collected as a node. -/
theorem c6_zero_area_counterexample :
    (RawElem.mk "flowchart-A-1" "X" 0 5).width *
        (RawElem.mk "flowchart-A-1" "X" 0 5).height = 0 ∧
    (collectFlowNodes [⟨"flowchart-A-1", "X", 0, 5⟩]).length = 1 := by
  constructor
  · norm_num
  · norm_num [collectFlowNodes, List.filterMap]
    rfl

/-! Flowchart recoverer: connector source and target resolution
(src/content.js lines 323–367)
-/

/-- JS `split` at underscores on char lists, preserving empty segments. -/
def splitUnd : List Char → List (List Char)
  | [] => [[]]
  | c :: cs =>
    if c = '_' then [] :: splitUnd cs
    else
      match splitUnd cs with
      | [] => [[c]]
      | g :: gs => (c :: g) :: gs

/-- JS `join` with underscore separator. -/
def joinUnd : List (List Char) → List Char
  | [] => []
  | [g] => g
  | g :: gs => g ++ '_' :: joinUnd gs

/-- JS regex test: the whole string is one or more digits. -/
def isAllDigits (l : List Char) : Bool := !l.isEmpty && l.all Char.isDigit

/-- Strip the `L_` or `FL_` connector-id prefix (line 329). -/
def stripLinkPre (s : List Char) : List Char :=
  if startsWithL "L_".data s then s.drop 2
  else if startsWithL "FL_".data s then s.drop 3
  else s

/-- Drop a final all-digits segment when more than one segment exists
(lines 330–332). -/
def dropNumericSeg (parts : List (List Char)) : List (List Char) :=
  if parts.length > 1 && isAllDigits (parts.getLastD []) then parts.dropLast else parts

/-- The name portion searched by the primary split loop (lines 329–333). -/
def edgeNameOf (pathId : List Char) : List Char :=
  joinUnd (dropNumericSeg (splitUnd (stripLinkPre pathId)))

/-- Does position `i` split `name` into two known node identifiers? -/
def splitMatchAt (ids : List (List Char)) (name : List Char) (i : Nat) : Bool :=
  ids.contains (name.take i) && ids.contains (name.drop i)

/-- The split loop of lines 335–345: try `i = 1, 2, …` below the name's
length in ascending order, accepting the first position where both halves are
known identifiers (fuel-based rendering of the JS `for` loop). -/
def firstSplitGo (ids : List (List Char)) (name : List Char) :
    Nat → Nat → Option (List Char × List Char)
  | _, 0 => none
  | i, fuel + 1 =>
    if i < name.length then
      if splitMatchAt ids name i then some (name.take i, name.drop i)
      else firstSplitGo ids name (i + 1) fuel
    else none

def firstSplit (ids : List (List Char)) (name : List Char) :
    Option (List Char × List Char) :=
  firstSplitGo ids name 1 name.length

/-- One candidate of the fallback loop (lines 350–360): source is the first
`i` segments joined, target the segments from `i` up to but excluding the
last. -/
def fallbackCandidate (parts : List (List Char)) (i : Nat) : List Char × List Char :=
  (joinUnd (parts.take i), joinUnd ((parts.take (parts.length - 1)).drop i))

def fallbackSplitGo (ids : List (List Char)) (parts : List (List Char)) :
    Nat → Nat → Option (List Char × List Char)
  | _, 0 => none
  | i, fuel + 1 =>
    if i < parts.length then
      if ids.contains (fallbackCandidate parts i).1 &&
          ids.contains (fallbackCandidate parts i).2 then
        some (fallbackCandidate parts i)
      else fallbackSplitGo ids parts (i + 1) fuel
    else none

/-- The fallback of lines 347–362, applied only when the prefix-stripped id
has more than two underscore-separated segments. -/
def fallbackSplit (ids : List (List Char)) (stripped : List Char) :
    Option (List Char × List Char) :=
  if (splitUnd stripped).length > 2 then
    fallbackSplitGo ids (splitUnd stripped) 1 (splitUnd stripped).length
  else none

/-- Source/target resolution for one connector path id (lines 323–367):
the primary substring-decomposition loop, then the fallback, else no edge. -/
def flowResolveEdge (ids : List (List Char)) (pathId : List Char) :
    Option (List Char × List Char) :=
  match firstSplit ids (edgeNameOf pathId) with
  | some r => some r
  | none => fallbackSplit ids (stripLinkPre pathId)

theorem firstSplitGo_finds (ids : List (List Char)) (name : List Char)
    (i₀ : Nat) (hi₀ : i₀ < name.length) (hm : splitMatchAt ids name i₀ = true) :
    ∀ (fuel i : Nat), i ≤ i₀ → i₀ - i < fuel →
      (∀ j, i ≤ j → j < i₀ → splitMatchAt ids name j = false) →
      firstSplitGo ids name i fuel = some (name.take i₀, name.drop i₀) := by
  intro fuel
  induction fuel with
  | zero => omega
  | succ fuel ih =>
    intro i hle hfuel hnone
    rw [firstSplitGo, if_pos (by omega)]
    rcases Nat.eq_or_lt_of_le hle with rfl | hlt
    · rw [hm, if_pos rfl]
    · rw [hnone i le_rfl hlt, if_neg (by simp)]
      exact ih (i + 1) hlt (by omega) fun j hj hj' => hnone j (by omega) hj'

/-- C2 (amended): In the flowchart recoverer, the source/target pair of a
connector is determined by trying every split point of the (prefix- and
numeric-suffix-stripped) name portion in ascending order and accepting the
first split where both halves match known node identifiers; when some split
matches, that resolution is the edge; when no split matches, a fallback
retries underscore-boundary decompositions of the prefix-stripped id (the
target dropping the final segment), and only when the fallback also fails
does the path yield no edge. -/
theorem c2_edge_split_resolution (ids : List (List Char)) :
    (∀ (name : List Char) (i : Nat), 1 ≤ i → i < name.length →
      splitMatchAt ids name i = true →
      (∀ j, 1 ≤ j → j < i → splitMatchAt ids name j = false) →
      firstSplit ids name = some (name.take i, name.drop i)) ∧
    (∀ (pathId : List Char) (r : List Char × List Char),
      firstSplit ids (edgeNameOf pathId) = some r →
      flowResolveEdge ids pathId = some r) ∧
    (∀ pathId : List Char, firstSplit ids (edgeNameOf pathId) = none →
      fallbackSplit ids (stripLinkPre pathId) = none →
      flowResolveEdge ids pathId = none) := by
  refine ⟨?_, ?_, ?_⟩
  · intro name i h1 h2 hm hnone
    exact firstSplitGo_finds ids name i h2 hm name.length 1 h1 (by omega) hnone
  · intro pathId r h
    rw [flowResolveEdge, h]
  · intro pathId h hf
    rw [flowResolveEdge, h, hf]

/-- Witness for C2: with node identifiers `A1` and `B2` and connector id
`L_A1B2_0`, the accepted split is `("A1", "B2")`. -/
theorem c2_edge_split_resolution_witness :
    firstSplit ["A1".data, "B2".data] "A1B2".data = some ("A1".data, "B2".data) ∧
    flowResolveEdge ["A1".data, "B2".data] "L_A1B2_0".data
      = some ("A1".data, "B2".data) := by
  have h := c2_edge_split_resolution ["A1".data, "B2".data]
  constructor
  · have h1 := h.1 "A1B2".data 2 (by decide) (by decide) (by decide)
      (fun j hj1 hj2 => by
        have hj : j = 1 := by omega
        subst hj
        decide)
    exact h1.trans (by decide)
  · exact h.2.1 "L_A1B2_0".data ("A1".data, "B2".data) (by decide)

/-- Counterexample to C2 as stated: for connector id `L_A_B_1` with node
identifiers `A` and `B`, no split point of the name portion `A_B` matches,
yet an edge `(A, B)` is produced (by the underscore fallback), contradicting
"a path where no split matches yields no edge". -/
theorem c2_no_split_still_edge_counterexample :
    edgeNameOf "L_A_B_1".data = "A_B".data ∧
    firstSplit ["A".data, "B".data] "A_B".data = none ∧
    flowResolveEdge ["A".data, "B".data] "L_A_B_1".data
      = some ("A".data, "B".data) := by
  decide

/-! Flowchart recoverer: edge-to-cluster assignment (lowest common ancestor)
(src/content.js lines 395–405)
-/

/-- The ancestor chain of an element: repeatedly follow the parent map until
the lookup is absent, as the JS `while` loop at lines 396–399 does; `fuel`
bounds the walk so the definition is total (the source loops forever on a
cyclic parent map). -/
def chainFrom (parent : String → Option String) : Nat → Option String → List String
  | _, none => []
  | 0, some _ => []
  | fuel + 1, some c => c :: chainFrom parent fuel (parent c)

/-- The ancestor walk starting at `x` falls off the map within `fuel` steps. -/
def reachesRoot (parent : String → Option String) : Nat → Option String → Bool
  | _, none => true
  | 0, some _ => false
  | fuel + 1, some c => reachesRoot parent fuel (parent c)

/-- The LCA loop of lines 400–403: walk the target's ancestors until one lies
in the source's ancestor chain. -/
def lcaWalk (parent : String → Option String) (sourceChain : List String) :
    Nat → Option String → Option String
  | _, none => none
  | 0, some c => some c
  | fuel + 1, some c =>
    if sourceChain.contains c then some c
    else lcaWalk parent sourceChain fuel (parent c)

/-- Edge owner (lines 395–405): the first target ancestor found in the source
chain, defaulting to the root sentinel (`lca || 'root'`, line 405). -/
def edgeOwner (parent : String → Option String) (fuel : Nat) (s t : String) : String :=
  match lcaWalk parent (chainFrom parent fuel (parent s)) fuel (parent t) with
  | some c => c
  | none => "root"

theorem contains_iff_mem (l : List String) (a : String) :
    l.contains a = true ↔ a ∈ l := by
  simp [List.contains, List.elem_iff]

theorem lcaWalk_eq_find (parent : String → Option String) (sc : List String) :
    ∀ (fuel : Nat) (x : Option String), reachesRoot parent fuel x = true →
      lcaWalk parent sc fuel x
        = (chainFrom parent fuel x).find? (fun c => sc.contains c) := by
  intro fuel
  induction fuel with
  | zero =>
    intro x hx
    cases x with
    | none => rfl
    | some c => exact absurd hx (by simp [reachesRoot])
  | succ fuel ih =>
    intro x hx
    cases x with
    | none => rfl
    | some c =>
      rw [reachesRoot] at hx
      rw [lcaWalk, chainFrom]
      by_cases h : sc.contains c = true
      · rw [if_pos h, List.find?_cons_of_pos _ h]
      · rw [if_neg h, List.find?_cons_of_neg _ h]
        exact ih (parent c) hx

/-- C5: In the flowchart recoverer, each edge is assigned to the first
cluster in the target endpoint's ancestor chain that also appears in the
source endpoint's ancestor chain (the lowest common ancestor under the
operational walk of lines 395–403); when the endpoints share no common
ancestor cluster the edge goes to the root scope; and a non-root owner is
always an ancestor of both endpoints. -/
theorem c5_edge_owner_is_lca (parent : String → Option String) (fuel : Nat)
    (s t : String)
    (hs : reachesRoot parent fuel (parent s) = true)
    (ht : reachesRoot parent fuel (parent t) = true) :
    (edgeOwner parent fuel s t =
      ((chainFrom parent fuel (parent t)).find?
        (fun c => (chainFrom parent fuel (parent s)).contains c)).getD "root") ∧
    ((∀ c ∈ chainFrom parent fuel (parent t),
        c ∉ chainFrom parent fuel (parent s)) →
      edgeOwner parent fuel s t = "root") ∧
    (∀ c, edgeOwner parent fuel s t = c → c ≠ "root" →
      c ∈ chainFrom parent fuel (parent t) ∧
        c ∈ chainFrom parent fuel (parent s)) := by
  have hmain := lcaWalk_eq_find parent (chainFrom parent fuel (parent s)) fuel
    (parent t) ht
  refine ⟨?_, ?_, ?_⟩
  · rw [edgeOwner, hmain]
    cases hfind : (chainFrom parent fuel (parent t)).find?
        (fun c => (chainFrom parent fuel (parent s)).contains c) with
    | none => rfl
    | some c => rfl
  · intro hno
    rw [edgeOwner, hmain]
    have : (chainFrom parent fuel (parent t)).find?
        (fun c => (chainFrom parent fuel (parent s)).contains c) = none := by
      rw [List.find?_eq_none]
      intro x hxm
      simp only [Bool.not_eq_true]
      rw [Bool.eq_false_iff]
      intro hcont
      exact hno x hxm ((contains_iff_mem _ _).mp hcont)
    rw [this]
  · intro c hc hcne
    rw [edgeOwner, hmain] at hc
    cases hfind : (chainFrom parent fuel (parent t)).find?
        (fun c => (chainFrom parent fuel (parent s)).contains c) with
    | none =>
      rw [hfind] at hc
      exact absurd hc.symm hcne
    | some d =>
      rw [hfind] at hc
      have hd : d = c := hc
      subst hd
      exact ⟨List.mem_of_find?_eq_some hfind,
        (contains_iff_mem _ _).mp (List.find?_some hfind)⟩

/-- Witness for C5: a concrete parent map where the endpoints' chains first
meet at `c0`; the edge is assigned to `c0`. -/
theorem c5_edge_owner_is_lca_witness :
    edgeOwner
      (fun s => List.lookup s [("n1", "c1"), ("n2", "c2"), ("c1", "c0"), ("c2", "c0")])
      5 "n1" "n2" = "c0" :=
  ((c5_edge_owner_is_lca
      (fun s => List.lookup s [("n1", "c1"), ("n2", "c2"), ("c1", "c0"), ("c2", "c0")])
      5 "n1" "n2" (by decide) (by decide)).1).trans (by decide)

/-! Sequence-diagram recoverer: message collection and pairing
(src/content.js, `convertSequenceDiagramSvgToMermaidText`, lines 924–1119)
-/

structure Participant where
  name : String
  x : ℚ
deriving DecidableEq

/-- One entry of `messageTexts` (lines 1004–1012). -/
structure MsgText where
  text : String
  y : ℚ
  x : ℚ
deriving DecidableEq

/-- One entry of `messageLines` (lines 1017–1055): straight `line` elements,
plus curved self-message paths appended afterwards. -/
structure MsgLine where
  x1 : ℚ
  y1 : ℚ
  x2 : ℚ
  y2 : ℚ
  isDashed : Bool
  isSelfMessage : Bool
deriving DecidableEq

/-- Stable insertion for the JS `sort` by vertical position: a later element
passes earlier elements only while their keys are strictly smaller, so equal
keys keep collection order (ES2019 `Array.prototype.sort` is stable). -/
def insertByKey {α : Type} (key : α → ℚ) (m : α) : List α → List α
  | [] => [m]
  | x :: xs => if key x < key m then x :: insertByKey key m xs else m :: x :: xs

def sortByKey {α : Type} (key : α → ℚ) : List α → List α
  | [] => []
  | a :: l => insertByKey key a (sortByKey key l)

theorem mem_insertByKey {α : Type} (key : α → ℚ) (m b : α) :
    ∀ l : List α, b ∈ insertByKey key m l ↔ b = m ∨ b ∈ l := by
  intro l
  induction l with
  | nil => simp [insertByKey]
  | cons x xs ih =>
    rw [insertByKey]
    by_cases h : key x < key m
    · rw [if_pos h]
      simp only [List.mem_cons, ih]
      tauto
    · rw [if_neg h]
      simp only [List.mem_cons]

theorem pairwise_insertByKey {α : Type} (key : α → ℚ) (m : α) :
    ∀ l : List α, List.Pairwise (fun a b => key a ≤ key b) l →
      key m ≤ key m →
      List.Pairwise (fun a b => key a ≤ key b) (insertByKey key m l) := by
  intro l
  induction l with
  | nil => intro _ _; simp [insertByKey]
  | cons x xs ih =>
    intro hp _
    rw [List.pairwise_cons] at hp
    rw [insertByKey]
    by_cases h : key x < key m
    · rw [if_pos h]
      rw [List.pairwise_cons]
      refine ⟨?_, ih hp.2 le_rfl⟩
      intro b hb
      rcases (mem_insertByKey key m b xs).mp hb with rfl | hbx
      · exact le_of_lt h
      · exact hp.1 b hbx
    · rw [if_neg h]
      rw [List.pairwise_cons]
      refine ⟨?_, List.pairwise_cons.mpr hp⟩
      intro b hb
      rcases List.mem_cons.mp hb with rfl | hbx
      · exact le_of_not_lt h
      · exact le_trans (le_of_not_lt h) (hp.1 b hbx)

theorem sortByKey_sorted {α : Type} (key : α → ℚ) :
    ∀ l : List α, List.Pairwise (fun a b => key a ≤ key b) (sortByKey key l) := by
  intro l
  induction l with
  | nil => simp [sortByKey]
  | cons a l ih => exact pairwise_insertByKey key a (sortByKey key l) ih le_rfl

theorem sortByKey_sorted_id {α : Type} (key : α → ℚ) :
    ∀ l : List α, List.Pairwise (fun a b => key a ≤ key b) l →
      sortByKey key l = l := by
  intro l
  induction l with
  | nil => simp [sortByKey]
  | cons a l ih =>
    intro hp
    rw [List.pairwise_cons] at hp
    rw [sortByKey, ih hp.2]
    cases l with
    | nil => simp [insertByKey]
    | cons x xs =>
      rw [insertByKey, if_neg (not_lt.mpr (hp.1 x (List.mem_cons_self x xs)))]

theorem sortByKey_length {α : Type} (key : α → ℚ) :
    ∀ l : List α, (sortByKey key l).length = l.length := by
  have hins : ∀ (m : α) (l : List α),
      (insertByKey key m l).length = l.length + 1 := by
    intro m l
    induction l with
    | nil => simp [insertByKey]
    | cons x xs ih =>
      rw [insertByKey]
      by_cases h : key x < key m
      · rw [if_pos h]
        simp [ih]
      · rw [if_neg h]
        simp
  intro l
  induction l with
  | nil => simp [sortByKey]
  | cons a l ih => rw [sortByKey, hins, ih, List.length_cons]

/-- The vertical pairing (lines 1013, 1057, 1061–1063): both collections are
sorted ascending by vertical position, then the i-th line pairs with the i-th
text, up to the shorter collection. -/
def pairedLineText (lines : List MsgLine) (texts : List MsgText) :
    List (MsgLine × MsgText) :=
  (sortByKey (fun l => l.y1) lines).zip (sortByKey (fun t => t.y) texts)

/-- The running-minimum test of the nearest-participant scans
(lines 1070–1096), absent best standing for `Infinity`. -/
def closerThan (d : ℚ) : Option (Participant × ℚ) → Prop
  | none => True
  | some (_, bd) => d < bd

instance : ∀ (d : ℚ) (b : Option (Participant × ℚ)), Decidable (closerThan d b)
  | _, none => isTrue trivial
  | d, some (_, bd) => inferInstanceAs (Decidable (d < bd))

def nearestParticipantGo (xval : ℚ) :
    List Participant → Option (Participant × ℚ) → Option (Participant × ℚ)
  | [], best => best
  | p :: rest, best =>
    if closerThan |p.x - xval| best then
      nearestParticipantGo xval rest (some (p, |p.x - xval|))
    else nearestParticipantGo xval rest best

/-- Nearest participant to a horizontal position (first strict minimum of
`Math.abs(p.x - x)` in collection order). -/
def nearestParticipant (ps : List Participant) (xval : ℚ) : Option Participant :=
  (nearestParticipantGo xval ps none).map Prod.fst

structure Message where
  fromName : String
  toName : String
  text : String
  arrow : String
  y : ℚ
  isSelfMessage : Bool
deriving DecidableEq

/-- Endpoint resolution and message construction for one (line, text) pair
(lines 1065–1118): self-messages resolve both ends to the participant nearest
`x1`; other lines resolve each end independently; the message is kept only
when the lookups succeed (which fails only with zero participants). -/
def resolveMessage (ps : List Participant) (lt : MsgLine × MsgText) :
    Option Message :=
  if lt.1.isSelfMessage then
    match nearestParticipant ps lt.1.x1 with
    | some p => some ⟨p.name, p.name, lt.2.text,
        if lt.1.isDashed then "-->>" else "->>", lt.1.y1, true⟩
    | none => none
  else
    match nearestParticipant ps lt.1.x1, nearestParticipant ps lt.1.x2 with
    | some p1, some p2 => some ⟨p1.name, p2.name, lt.2.text,
        if lt.1.isDashed then "-->>" else "->>", lt.1.y1, false⟩
    | _, _ => none

/-- The message-building loop of lines 1061–1119. -/
def buildMessages (ps : List Participant) (lines : List MsgLine)
    (texts : List MsgText) : List Message :=
  (pairedLineText lines texts).filterMap (resolveMessage ps)

/-- C4: In the sequence-diagram recoverer, message lines and message texts
are independently sorted ascending by vertical position and then paired
index-wise: on already-sorted collections the i-th line pairs with the i-th
text, and the pairing of arbitrarily ordered collections equals the pairing
of their vertically sorted permutations (only the vertical order of the
inputs determines the pairing). -/
theorem c4_pairing_by_vertical_position (lines : List MsgLine)
    (texts : List MsgText) :
    (List.Pairwise (fun a b => a.y1 ≤ b.y1) lines →
      List.Pairwise (fun a b => a.y ≤ b.y) texts →
      pairedLineText lines texts = lines.zip texts) ∧
    pairedLineText lines texts
      = pairedLineText (sortByKey (fun l => l.y1) lines)
          (sortByKey (fun t => t.y) texts) := by
  constructor
  · intro hl ht
    rw [pairedLineText, sortByKey_sorted_id _ lines hl, sortByKey_sorted_id _ texts ht]
  · rw [pairedLineText, pairedLineText,
      sortByKey_sorted_id _ (sortByKey (fun l => l.y1) lines) (sortByKey_sorted _ lines),
      sortByKey_sorted_id _ (sortByKey (fun t => t.y) texts) (sortByKey_sorted _ texts)]

/-- Witness for C4: two sorted lines and texts pair index-wise. -/
theorem c4_pairing_by_vertical_position_witness :
    pairedLineText
      [⟨0, 1, 5, 1, false, false⟩, ⟨5, 2, 0, 2, true, false⟩]
      [⟨"hello", 1, 2⟩, ⟨"world", 2, 2⟩]
      = [(⟨0, 1, 5, 1, false, false⟩, ⟨"hello", 1, 2⟩),
          (⟨5, 2, 0, 2, true, false⟩, ⟨"world", 2, 2⟩)] := by
  have h := (c4_pairing_by_vertical_position
    [⟨0, 1, 5, 1, false, false⟩, ⟨5, 2, 0, 2, true, false⟩]
    [⟨"hello", 1, 2⟩, ⟨"world", 2, 2⟩]).1
    (by norm_num [List.pairwise_cons]) (by norm_num [List.pairwise_cons])
  exact h.trans (by rfl)

theorem nearestParticipantGo_some (xval : ℚ) :
    ∀ (l : List Participant) (b : Participant × ℚ),
      ∃ r, nearestParticipantGo xval l (some b) = some r := by
  intro l
  induction l with
  | nil => exact fun b => ⟨b, rfl⟩
  | cons p rest ih =>
    intro b
    by_cases h : closerThan |p.x - xval| (some b)
    · rw [nearestParticipantGo, if_pos h]
      exact ih _
    · rw [nearestParticipantGo, if_neg h]
      exact ih b

theorem nearestParticipant_isSome (ps : List Participant) (hps : ps ≠ [])
    (xval : ℚ) : ∃ p, nearestParticipant ps xval = some p := by
  cases ps with
  | nil => exact absurd rfl hps
  | cons p rest =>
    rw [nearestParticipant, nearestParticipantGo,
      if_pos (show closerThan |p.x - xval| none from trivial)]
    obtain ⟨r, hr⟩ := nearestParticipantGo_some xval rest (p, |p.x - xval|)
    exact ⟨r.1, by rw [hr]; rfl⟩

theorem resolveMessage_isSome (ps : List Participant) (hps : ps ≠ [])
    (lt : MsgLine × MsgText) : ∃ m, resolveMessage ps lt = some m := by
  rw [resolveMessage]
  by_cases hself : lt.1.isSelfMessage = true
  · rw [if_pos hself]
    obtain ⟨p, hp⟩ := nearestParticipant_isSome ps hps lt.1.x1
    rw [hp]
    exact ⟨_, rfl⟩
  · rw [if_neg hself]
    obtain ⟨p1, hp1⟩ := nearestParticipant_isSome ps hps lt.1.x1
    obtain ⟨p2, hp2⟩ := nearestParticipant_isSome ps hps lt.1.x2
    rw [hp1, hp2]
    exact ⟨_, rfl⟩

theorem length_filterMap_of_forall_some {α β : Type} (f : α → Option β) :
    ∀ l : List α, (∀ x ∈ l, ∃ y, f x = some y) →
      (l.filterMap f).length = l.length := by
  intro l
  induction l with
  | nil => simp
  | cons a l ih =>
    intro h
    obtain ⟨y, hy⟩ := h a (List.mem_cons_self a l)
    rw [List.filterMap_cons, hy]
    simp only [List.length_cons]
    rw [ih fun x hx => h x (List.mem_cons_of_mem _ hx)]

/-- C9 (amended): In the sequence-diagram recoverer, when at least one
participant was recovered, exactly `min(#lines, #texts)` messages are
emitted: pairing proceeds by index up to the shorter collection and every
surplus line or surplus text is discarded.  (With zero participants no
message is emitted regardless of the counts — see the counterexample.) -/
theorem c9_message_count_is_min (ps : List Participant) (lines : List MsgLine)
    (texts : List MsgText) (hps : ps ≠ []) :
    (buildMessages ps lines texts).length = min lines.length texts.length := by
  rw [buildMessages, length_filterMap_of_forall_some _ _
    fun lt _ => resolveMessage_isSome ps hps lt]
  rw [pairedLineText, List.length_zip, sortByKey_length, sortByKey_length]

/-- Witness for C9: one participant, one line, two texts — one message. -/
theorem c9_message_count_is_min_witness :
    (buildMessages [⟨"Alice", 0⟩] [⟨0, 1, 5, 1, false, false⟩]
      [⟨"hello", 1, 2⟩, ⟨"late", 2, 2⟩]).length = 1 :=
  (c9_message_count_is_min [⟨"Alice", 0⟩] [⟨0, 1, 5, 1, false, false⟩]
      [⟨"hello", 1, 2⟩, ⟨"late", 2, 2⟩] (by simp)).trans (by norm_num)

/-- Counterexample to C9 as stated: with zero recovered participants, one
message line and two message texts, `min` is `1` yet no message is emitted
(the endpoint lookups fail and the pair is dropped). -/
theorem c9_zero_participants_counterexample :
    buildMessages [] [⟨0, 1, 5, 1, false, false⟩]
      [⟨"hello", 1, 2⟩, ⟨"late", 2, 2⟩] = [] ∧
    min ([⟨0, 1, 5, 1, false, false⟩] : List MsgLine).length
      ([⟨"hello", 1, 2⟩, ⟨"late", 2, 2⟩] : List MsgText).length = 1 := by
  exact ⟨rfl, rfl⟩

/-! State-diagram recoverer
(src/content.js, `convertStateDiagramSvgToMermaidText`, lines 1215–1411)
-/

/-- A recovered state box (states and start/end sentinels), lines 1241–1295:
translated rect corners. -/
structure StateBox where
  name : String
  x1 : ℚ
  y1 : ℚ
  x2 : ℚ
  y2 : ℚ
deriving DecidableEq

/-- A transition path's parsed endpoints: the start of the `d` attribute and
its final coordinate pair (lines 1331–1342). -/
structure StatePath where
  sx : ℚ
  sy : ℚ
  ex : ℚ
  ey : ℚ
deriving DecidableEq

/-- An edge label with its translate position (lines 1297–1312). -/
structure StateLabel where
  text : String
  x : ℚ
  y : ℚ
deriving DecidableEq

/-- Model of `Math.max` of two values. -/
def jsMax (a b : ℚ) : ℚ := if a < b then b else a

/-- Squared point-to-box distance (`getDistanceToBox`, lines 1314–1318;
squared model of the Euclidean distance). -/
def distSqToBox (px py : ℚ) (b : StateBox) : ℚ :=
  jsMax (b.x1 - px) (jsMax 0 (px - b.x2)) * jsMax (b.x1 - px) (jsMax 0 (px - b.x2)) +
    jsMax (b.y1 - py) (jsMax 0 (py - b.y2)) * jsMax (b.y1 - py) (jsMax 0 (py - b.y2))

/-- Squared point-to-point distance (`getDistance`, lines 1320–1322). -/
def distSqPts (x1 y1 x2 y2 : ℚ) : ℚ :=
  (x1 - x2) * (x1 - x2) + (y1 - y2) * (y1 - y2)

/-- Running-minimum test for the box scans (lines 1347–1358). -/
def closerBox (d : ℚ) : Option (Nat × StateBox × ℚ) → Prop
  | none => True
  | some (_, _, bd) => d < bd

instance : ∀ (d : ℚ) (b : Option (Nat × StateBox × ℚ)), Decidable (closerBox d b)
  | _, none => isTrue trivial
  | d, some (_, _, bd) => inferInstanceAs (Decidable (d < bd))

/-- Nearest box to a point: index (standing for JS object identity — each
entry of `nodes` is a distinct object), the box, and its squared distance;
first strict minimum in collection order. -/
def nearestBoxGo (px py : ℚ) :
    List StateBox → Nat → Option (Nat × StateBox × ℚ) → Option (Nat × StateBox × ℚ)
  | [], _, best => best
  | b :: rest, idx, best =>
    if closerBox (distSqToBox px py b) best then
      nearestBoxGo px py rest (idx + 1) (some (idx, b, distSqToBox px py b))
    else nearestBoxGo px py rest (idx + 1) best

def nearestBox (nodes : List StateBox) (px py : ℚ) : Option (Nat × StateBox × ℚ) :=
  nearestBoxGo px py nodes 0 none

/-- Running-minimum test for the label scan (lines 1368–1374). -/
def closerLabel (d : ℚ) : Option (StateLabel × ℚ) → Prop
  | none => True
  | some (_, bd) => d < bd

instance : ∀ (d : ℚ) (b : Option (StateLabel × ℚ)), Decidable (closerLabel d b)
  | _, none => isTrue trivial
  | d, some (_, bd) => inferInstanceAs (Decidable (d < bd))

def nearestLabelGo (mx my : ℚ) :
    List StateLabel → Option (StateLabel × ℚ) → Option (StateLabel × ℚ)
  | [], best => best
  | l :: rest, best =>
    if closerLabel (distSqPts mx my l.x l.y) best then
      nearestLabelGo mx my rest (some (l, distSqPts mx my l.x l.y))
    else nearestLabelGo mx my rest best

structure STransition where
  fromName : String
  toName : String
  label : String
deriving DecidableEq

/-- Processing of one `path.transition` (lines 1327–1393): resolve the
nearest box to each endpoint, require both squared distances below `25`
(distance `5`), attach the nearest label within squared distance `22500`
(distance `150`), drop self-loops on a single box (`sourceNode ===
targetNode` is object identity, modelled by index equality), and suppress
duplicate (from, to, label) triples before pushing. -/
def transitionStep (nodes : List StateBox) (labels : List StateLabel)
    (acc : List STransition) (p : StatePath) : List STransition :=
  match nearestBox nodes p.sx p.sy, nearestBox nodes p.ex p.ey with
  | some (si, sb, sd), some (ti, tb, td) =>
    if sd < 25 ∧ td < 25 then
      let lbl :=
        match nearestLabelGo ((p.sx + p.ex) / 2) ((p.sy + p.ey) / 2) labels none with
        | some (l, d) => if d < 22500 then l.text else ""
        | none => ""
      if si = ti then acc
      else if acc.any fun t =>
          t.fromName == sb.name && t.toName == tb.name && t.label == lbl then acc
      else acc ++ [⟨sb.name, tb.name, lbl⟩]
    else acc
  | _, _ => acc

/-- The transition collection loop (line 1327, `forEach` over the paths). -/
def processTransitions (nodes : List StateBox) (labels : List StateLabel)
    (paths : List StatePath) : List STransition :=
  paths.foldl (transitionStep nodes labels) []

/-- Mermaid text assembly (lines 1396–1403). -/
def renderStateDiagram (ts : List STransition) : String :=
  "stateDiagram-v2\n" ++ ts.foldl (fun acc t =>
    acc ++ "    " ++ t.fromName ++ " --> " ++ t.toName ++
      (if t.label ≠ "" then " : \"" ++ t.label ++ "\"" else "") ++ "\n") ""

/-- The state-diagram converter (lines 1215–1411): `null` when no transition
was recovered (line 1405), else the fenced Mermaid block. -/
def convertStateDiagram (nodes : List StateBox) (labels : List StateLabel)
    (paths : List StatePath) : Option String :=
  if processTransitions nodes labels paths = [] then none
  else some ("```mermaid\n" ++
    (renderStateDiagram (processTransitions nodes labels paths)).trim ++ "\n```")

def differentTriple (a b : STransition) : Prop :=
  ¬ (a.fromName = b.fromName ∧ a.toName = b.toName ∧ a.label = b.label)

theorem pairwise_transitionStep (nodes : List StateBox)
    (labels : List StateLabel) (p : StatePath) (acc : List STransition)
    (h : List.Pairwise differentTriple acc) :
    List.Pairwise differentTriple (transitionStep nodes labels acc p) := by
  rw [transitionStep]
  cases hs : nearestBox nodes p.sx p.sy with
  | none => exact h
  | some s =>
    obtain ⟨si, sb, sd⟩ := s
    cases ht : nearestBox nodes p.ex p.ey with
    | none => exact h
    | some t =>
      obtain ⟨ti, tb, td⟩ := t
      dsimp only
      by_cases hd : sd < 25 ∧ td < 25
      · rw [if_pos hd]
        by_cases hii : si = ti
        · rw [if_pos hii]
          exact h
        · rw [if_neg hii]
          set lbl := (match nearestLabelGo ((p.sx + p.ex) / 2) ((p.sy + p.ey) / 2)
              labels none with
            | some (l, d) => if d < 22500 then l.text else ""
            | none => "") with hlbl
          by_cases hany : acc.any (fun t' =>
              t'.fromName == sb.name && t'.toName == tb.name && t'.label == lbl) = true
          · rw [if_pos hany]
            exact h
          · rw [if_neg hany]
            rw [List.pairwise_append]
            refine ⟨h, List.pairwise_singleton _ _, ?_⟩
            intro a ha b hb
            rw [List.mem_singleton] at hb
            subst hb
            rintro ⟨h1, h2, h3⟩
            rw [Bool.not_eq_true, List.any_eq_false] at hany
            have := hany a ha
            simp only [h1, h2, h3, beq_self_eq_true, Bool.and_self,
              not_true_eq_false] at this
      · rw [if_neg hd]
        exact h

/-- C7 (amended): In the state-diagram recoverer, the emitted transition
list never contains two transitions with identical (source, target, label)
triples; and a connector path whose two endpoints resolve to the same
recovered node box (JS object identity, modelled by equal indices) adds no
transition.  Transitions between two *distinct* boxes that share a display
name may still put equal source and target names in the list — see the
counterexample. -/
theorem c7_no_self_box_and_no_duplicates (nodes : List StateBox)
    (labels : List StateLabel) (paths : List StatePath) :
    List.Pairwise differentTriple (processTransitions nodes labels paths) ∧
    (∀ (acc : List STransition) (p : StatePath) (i : Nat) (sb tb : StateBox)
        (sd td : ℚ),
      nearestBox nodes p.sx p.sy = some (i, sb, sd) →
      nearestBox nodes p.ex p.ey = some (i, tb, td) →
      transitionStep nodes labels acc p = acc) := by
  constructor
  · have haux : ∀ (ps : List StatePath) (acc : List STransition),
        List.Pairwise differentTriple acc →
        List.Pairwise differentTriple (ps.foldl (transitionStep nodes labels) acc) := by
      intro ps
      induction ps with
      | nil => exact fun acc h => h
      | cons p ps ih =>
        intro acc h
        exact ih _ (pairwise_transitionStep nodes labels p acc h)
    exact haux paths [] List.Pairwise.nil
  · intro acc p i sb tb sd td hsrc htgt
    rw [transitionStep, hsrc, htgt]
    dsimp only
    by_cases hd : sd < 25 ∧ td < 25
    · rw [if_pos hd, if_pos rfl]
    · rw [if_neg hd]

/-- Witness for C7: a single box, a path entirely inside it; both endpoints
resolve to that box, so no transition is added. -/
theorem c7_no_self_box_and_no_duplicates_witness :
    transitionStep [⟨"A", 0, 0, 10, 10⟩] [] [] ⟨1, 1, 2, 2⟩ = [] :=
  (c7_no_self_box_and_no_duplicates [⟨"A", 0, 0, 10, 10⟩] [] []).2
    [] ⟨1, 1, 2, 2⟩ 0 ⟨"A", 0, 0, 10, 10⟩ ⟨"A", 0, 0, 10, 10⟩ 0 0
    (by norm_num [nearestBox, nearestBoxGo, closerBox, distSqToBox, jsMax])
    (by norm_num [nearestBox, nearestBoxGo, closerBox, distSqToBox, jsMax])

/-- Counterexample to C7 as stated: two distinct boxes both named `[*]` (the
start and end sentinels) connected by a path produce a transition whose
source state name equals its target state name. -/
theorem c7_same_name_transition_counterexample :
    processTransitions
      [⟨"[*]", 0, 0, 10, 10⟩, ⟨"[*]", 100, 0, 110, 10⟩] []
      [⟨10, 5, 100, 5⟩]
      = [⟨"[*]", "[*]", ""⟩] ∧
    (STransition.mk "[*]" "[*]" "").fromName
      = (STransition.mk "[*]" "[*]" "").toName := by
  refine ⟨?_, rfl⟩
  norm_num [processTransitions, transitionStep, nearestBox, nearestBoxGo,
    closerBox, distSqToBox, jsMax, nearestLabelGo]

/-- C10: The state-diagram recoverer returns null exactly when zero
transitions were recovered; in particular any input without connector paths —
whatever state boxes were recognized — yields null. -/
theorem c10_null_iff_no_transitions (nodes : List StateBox)
    (labels : List StateLabel) (paths : List StatePath) :
    (convertStateDiagram nodes labels paths = none ↔
      processTransitions nodes labels paths = []) ∧
    convertStateDiagram nodes labels [] = none := by
  constructor
  · rw [convertStateDiagram]
    by_cases h : processTransitions nodes labels paths = []
    · rw [if_pos h]
      simp [h]
    · rw [if_neg h]
      simp [h]
  · rfl

/-! Block converter: per-node error boundary
(src/content.js, `processNode`, lines 1413–1805)

`processNode` wraps its entire element `switch` in `try { … } catch (error)`
(lines 1446 and 1799–1802), returning the inline marker
`\n[ERROR_PROCESSING_ELEMENT: <nodeName>]\n\n` when the node's own conversion
throws.  Child nodes are converted by recursive `processNode` calls *inside*
the switch, each protected by its own boundary.  The embedding keeps the
recursion-and-boundary skeleton exactly and abstracts the switch body as a
parameter `conv` mapping a node's name and its children's converted outputs
to either a result string or a thrown exception; the theorems hold for every
switch body. -/

inductive DomNode where
  | node (kind : String) (children : List DomNode)

def DomNode.kind : DomNode → String
  | .node k _ => k

def DomNode.children : DomNode → List DomNode
  | .node _ cs => cs

/-- The inline marker of line 1801. -/
def errorMarker (kind : String) : String :=
  "\n[ERROR_PROCESSING_ELEMENT: " ++ kind ++ "]\n\n"

/-- The recursion-with-boundary skeleton of `processNode`: convert the
children (each themselves protected), run this node's conversion, and replace
a thrown exception by the inline marker. -/
def processNode (conv : String → List String → Except String String) :
    DomNode → String
  | .node k cs =>
    match conv k (cs.attach.map fun c => processNode conv c.1) with
    | .ok s => s
    | .error _ => errorMarker k
termination_by t => sizeOf t
decreasing_by
  have h := List.sizeOf_lt_of_mem c.2
  simp only [DomNode.node.sizeOf_spec]
  omega

theorem processNode_eq (conv : String → List String → Except String String)
    (k : String) (cs : List DomNode) :
    processNode conv (.node k cs)
      = match conv k (cs.map (processNode conv)) with
        | .ok s => s
        | .error _ => errorMarker k := by
  simp only [processNode]
  rw [List.attach_map_val cs (processNode conv)]

/-- C8: In the block converter, an exception raised while converting one
node is caught at that node's boundary and replaced by the visible inline
error marker; in its parent's children list every sibling still contributes
its own normal conversion, with only the failing child replaced by the
marker; and the parent (hence every ancestor) still combines all the
children's outputs — a per-node failure never aborts the whole conversion
(`processNode` is total and returns a string for every tree). -/
theorem c8_error_boundary_replaces_node
    (conv : String → List String → Except String String)
    (k : String) (l r : List DomNode) (c : DomNode) (e : String)
    (hfail : conv c.kind (c.children.map (processNode conv)) = .error e) :
    processNode conv c = errorMarker c.kind ∧
    (l ++ c :: r).map (processNode conv)
      = l.map (processNode conv) ++ errorMarker c.kind :: r.map (processNode conv) ∧
    processNode conv (.node k (l ++ c :: r))
      = match conv k (l.map (processNode conv) ++
          errorMarker c.kind :: r.map (processNode conv)) with
        | .ok s => s
        | .error _ => errorMarker k := by
  have hmarker : processNode conv c = errorMarker c.kind := by
    cases c with
    | node kc cc =>
      rw [processNode_eq]
      simp only [DomNode.kind, DomNode.children] at hfail ⊢
      rw [hfail]
  have hmap : (l ++ c :: r).map (processNode conv)
      = l.map (processNode conv) ++
          errorMarker c.kind :: r.map (processNode conv) := by
    rw [List.map_append, List.map_cons, hmarker]
  exact ⟨hmarker, hmap, by rw [processNode_eq, hmap]⟩

/-- Witness for C8: a parent with three children whose middle child's
conversion throws; the middle child becomes the inline marker while the
parent still concatenates all three children's outputs. -/
theorem c8_error_boundary_replaces_node_witness :
    processNode
      (fun k outs => if k = "BAD" then .error "boom" else .ok (String.join outs))
      (.node "BAD" []) = errorMarker "BAD" ∧
    processNode
      (fun k outs => if k = "BAD" then .error "boom" else .ok (String.join outs))
      (.node "DIV" [.node "P" [], .node "BAD" [], .node "H1" []])
      = String.join ["", errorMarker "BAD", ""] := by
  have h := c8_error_boundary_replaces_node
    (fun k outs => if k = "BAD" then .error "boom" else .ok (String.join outs))
    "DIV" [.node "P" []] [.node "H1" []] (.node "BAD" []) "boom" (by rfl)
  refine ⟨h.1, ?_⟩
  have h3 := h.2.2
  simp only [List.map_cons, List.map_nil] at h3
  rw [show ([DomNode.node "P" []] ++ DomNode.node "BAD" [] :: [DomNode.node "H1" []])
      = [DomNode.node "P" [], DomNode.node "BAD" [], DomNode.node "H1" []] from rfl] at h3
  rw [h3, processNode_eq, processNode_eq]
  rfl

end DeepWiki
